import Mathlib

/-!
# AutoFlow workflow engine — shallow embedding

A shallow embedding of the core of the AutoFlow workflow execution engine
(`WorkflowEngine`: `execute`, `executeAction`, `resolveVariables`,
`substituteString`, `getNestedValue`, `validateWorkflow`).

JSON-like runtime values are modelled by the inductive `Value`
(numbers are modelled as integers: the engine never computes with numbers,
it only stores and stringifies them).  JavaScript's `undefined` is modelled
as `Option.none` where it matters (property lookup, optional fields).
Objects are ordered association lists, as in JavaScript.
String-level scanning functions are written with explicit fuel so that they
are structurally recursive and evaluate by kernel reduction.
-/

namespace AutoFlow

/-- JSON-like values: null | bool | number | string | array | object.
Numbers are modelled as integers (the engine only stringifies them). -/
inductive Value where
  | null : Value
  | bool (b : Bool) : Value
  | num (n : Int) : Value
  | str (s : String) : Value
  | arr (xs : List Value) : Value
  | obj (fields : List (String × Value)) : Value
deriving Repr

/-- An execution context / object body: an ordered string-keyed map. -/
abbrev Ctx := List (String × Value)

/-- JavaScript truthiness of a value (`NaN` is not modelled). -/
def truthy : Value → Bool
  | .null => false
  | .bool b => b
  | .num n => n != 0
  | .str s => s ≠ ""
  | .arr _ => true
  | .obj _ => true

/-- Property read on an object body: first binding wins, as in a JS object
(keys are unique in practice; insertion keeps them unique). -/
def getProp (fields : Ctx) (k : String) : Option Value :=
  match fields with
  | [] => none
  | (k', v) :: rest => if k' = k then some v else getProp rest k

/-- JS property assignment `o[k] = v`: overwrite in place if the key exists,
otherwise append at the end (JS insertion order). -/
def setKey (fields : Ctx) (k : String) (v : Value) : Ctx :=
  match fields with
  | [] => [(k, v)]
  | (k', w) :: rest => if k' = k then (k, v) :: rest else (k', w) :: setKey rest k v

/-- JS property read `current[key]` on an arbitrary value, restricted to own
data properties: object fields; array numeric indices and `length`; string
numeric indices and `length`.  Primitives have no own properties. -/
def indexVal : Value → String → Option Value
  | .obj fields, k => getProp fields k
  | .arr xs, k =>
      if k = "length" then some (.num xs.length)
      else match k.toNat? with
        | some i => if toString i = k then xs.get? i else none
        | none => none
  | .str s, k =>
      if k = "length" then some (.num s.length)
      else match k.toNat? with
        | some i =>
            if toString i = k then (s.data.get? i).map (fun c => .str (String.mk [c]))
            else none
        | none => none
  | _, _ => none

/-- Split a character list at `'.'`, as JS `path.split('.')`
(`""` yields `[""]`, `"a."` yields `["a", ""]`).  Fueled so that the
definition is structural. -/
def splitDotsAux : Nat → List Char → List String
  | 0, cs => [String.mk cs]
  | n + 1, cs =>
      let seg := cs.takeWhile (fun c => c ≠ '.')
      match cs.dropWhile (fun c => c ≠ '.') with
      | '.' :: rest => String.mk seg :: splitDotsAux n rest
      | _ => [String.mk seg]

def splitDots (cs : List Char) : List String :=
  splitDotsAux cs.length cs

/--
`getNestedValue(obj, path)`:
```
return path.split('.').reduce((current, key) => {
    return current && current[key] !== undefined ? current[key] : undefined;
}, obj);
```
`none` models JS `undefined`. -/
def getNestedValue (v : Value) (path : String) : Option Value :=
  (splitDots path.data).foldl
    (fun current key =>
      match current with
      | some c => if truthy c then
          match indexVal c key with
          | some w => some w
          | none => none
        else none
      | none => none)
    (some v)

/-- Whitespace for `String.prototype.trim` (the common characters). -/
def isWs (c : Char) : Bool :=
  c = ' ' ∨ c = '\t' ∨ c = '\n' ∨ c = '\r'

/-- JS `path.trim()` on a character list. -/
def trimChars (cs : List Char) : List Char :=
  ((cs.dropWhile isWs).reverse.dropWhile isWs).reverse

mutual

/-- JS default string conversion `String(v)` (as used when a substitution
callback's return value is coerced by `String.prototype.replace`):
numbers and booleans in canonical form, `null` as `"null"`, arrays as their
comma-joined elements (`null` elements render empty, as in
`Array.prototype.join`), plain objects as `"[object Object]"`. -/
def valueToString : Value → String
  | .null => "null"
  | .bool true => "true"
  | .bool false => "false"
  | .num n => toString n
  | .str s => s
  | .arr xs => joinVals xs
  | .obj _ => "[object Object]"

/-- `Array.prototype.join(",")` over rendered elements, with `null`
elements rendering as the empty string. -/
def joinVals : List Value → String
  | [] => ""
  | [.null] => ""
  | [v] => valueToString v
  | .null :: vs => "," ++ joinVals vs
  | v :: vs => valueToString v ++ "," ++ joinVals vs

end

/--
`substituteString(str, context)` scanner body:
```
return str.replace(/\{\{([^}]+)\}\}/g, (match, path) => {
    const value = this.getNestedValue(context, path.trim());
    return value !== undefined ? value : match;
});
```
Scans left to right; at `'{','{'` followed by a non-empty run of non-`'}'`
characters and then `'}','}'`, replaces the occurrence by the string form of
the resolved value, or leaves the occurrence verbatim when the path does not
resolve; on a failed match the scanner advances one character, as the regex
engine does.  Fuel is an upper bound on the characters left to scan. -/
def scanAux (ctx : Ctx) : Nat → List Char → List Char
  | 0, cs => cs
  | _ + 1, [] => []
  | n + 1, c :: cs =>
      if c = '{' ∧ cs.head? = some '{' then
        let rest := cs.tail
        let run := rest.takeWhile (fun d => d ≠ '}')
        let rest' := rest.dropWhile (fun d => d ≠ '}')
        if run.isEmpty then '{' :: scanAux ctx n cs
        else if rest'.head? = some '}' ∧ rest'.tail.head? = some '}' then
          (match getNestedValue (Value.obj ctx) (String.mk (trimChars run)) with
           | some v => (valueToString v).data
           | none => '{' :: '{' :: (run ++ '}' :: '}' :: [])) ++ scanAux ctx n rest'.tail.tail
        else '{' :: scanAux ctx n cs
      else c :: scanAux ctx n cs

/-- `WorkflowEngine.substituteString(str, context)`. -/
def substituteString (s : String) (ctx : Ctx) : String :=
  String.mk (scanAux ctx s.data.length s.data)

mutual

/-- `WorkflowEngine.resolveVariables(config, context)`: strings are
substituted, arrays element-wise, objects value-wise (keys untouched), other
scalars pass through unchanged. -/
def resolveVariables : Value → Ctx → Value
  | .str s, ctx => .str (substituteString s ctx)
  | .arr xs, ctx => .arr (resolveList xs ctx)
  | .obj fs, ctx => .obj (resolveFields fs ctx)
  | v, _ => v

def resolveList : List Value → Ctx → List Value
  | [], _ => []
  | v :: vs, ctx => resolveVariables v ctx :: resolveList vs ctx

def resolveFields : List (String × Value) → Ctx → List (String × Value)
  | [], _ => []
  | kv :: fs, ctx => (kv.1, resolveVariables kv.2 ctx) :: resolveFields fs ctx

end

/-! ## The execution orchestrator (`WorkflowEngine.execute`)

The engine is deterministic given the generated run identifier and the
run-start timestamp, so those two effects (`uuidv4()`, `new Date()`) are
passed in as parameters.  The persistence collaborator (`this.db`) is
assumed reliable, as the spec states; its observable effect on step records
is modelled by the list of terminal step records the run produces (each
record is created as `running` and updated exactly once to its terminal
status before the loop moves on).  Handler dispatch
(`this.actionHandlers.getHandler`) is a parameter: a partial map from type
tags to handlers, where a handler either returns a result or throws an
error message. -/

/-- One action of a workflow: `{id, type, config, output?}`. -/
structure Action where
  id : String
  type : String
  config : Value
  output : Option String
deriving Repr

/-- A workflow definition as the orchestrator consumes it (the orchestrator
assumes a structurally valid workflow). -/
structure Workflow where
  id : Value
  name : Value
  actions : List Action
deriving Repr

/-- The handler registry: `getHandler(type)` yields a handler or nothing;
a handler returns a result or throws an error message. -/
def Handlers := String → Option (Value → Except String Value)

/-- Terminal state of a persisted step record (created `running`, updated
exactly once to `completed` with `output_data` or to `failed` with
`error_message`). -/
structure StepRecord where
  step_id : String
  step_type : String
  input_data : Value
  status : String
  output_data : Option Value
  error_message : Option String
deriving Repr

/-- In-memory execution log entry:
`{step, status: 'completed', output}` or `{step, status: 'failed', error}`. -/
inductive LogEntry where
  | completed (step : String) (output : Value)
  | failed (step : String) (error : String)
deriving Repr

/--
`WorkflowEngine.executeAction(type, config)`:
```
const handler = this.actionHandlers.getHandler(type);
if (!handler) {
    throw new Error(`Unknown action type: ${type}`);
}
return await handler(config);
```
-/
def executeAction (handlers : Handlers) (type : String) (config : Value) :
    Except String Value :=
  match handlers type with
  | none => .error ("Unknown action type: " ++ type)
  | some h => h config

/-- The context update after a successful action:
`if (action.output) { context[action.output] = result; }`
(`action.output` is tested for JS truthiness, so an empty-string output key
is not written). -/
def stepCtx (a : Action) (result : Value) (ctx : Ctx) : Ctx :=
  match a.output with
  | some k => if k = "" then ctx else setKey ctx k result
  | none => ctx

/-- Observable state of the per-action loop: the terminal step records, the
in-memory execution log, the abort error (if the loop threw), and the final
context. -/
structure RunState where
  steps : List StepRecord
  log : List LogEntry
  err : Option String
  ctx : Ctx
deriving Repr

/-- The per-action loop of `WorkflowEngine.execute`: for each action, create
a step record (input = raw config), resolve the config against the current
context, dispatch; on success update the step and context and log a
completed entry; on failure update the step to failed, log a failed entry
and abort — no further action runs. -/
def runActions (handlers : Handlers) : List Action → Ctx → RunState
  | [], ctx => ⟨[], [], none, ctx⟩
  | a :: rest, ctx =>
      match executeAction handlers a.type (resolveVariables a.config ctx) with
      | .ok result =>
          let r := runActions handlers rest (stepCtx a result ctx)
          ⟨⟨a.id, a.type, a.config, "completed", some result, none⟩ :: r.steps,
           .completed a.id result :: r.log, r.err, r.ctx⟩
      | .error msg =>
          ⟨[⟨a.id, a.type, a.config, "failed", none, some msg⟩],
           [.failed a.id msg], some msg, ctx⟩

/-- The value `execute` returns: `{success, execution_id, log, context}` on
completion, `{success, execution_id, error, log}` on an aborted run (the
absent field is `none`). -/
structure ExecResult where
  success : Bool
  execution_id : String
  log : List LogEntry
  error : Option String
  context : Option Ctx
deriving Repr

/-- The context seeded at run start:
`{trigger: triggerData, workflow: {id, name}, now: ISO timestamp,
executionId}`. -/
def seedContext (w : Workflow) (triggerData : Value) (executionId now : String) :
    Ctx :=
  [("trigger", triggerData),
   ("workflow", .obj [("id", w.id), ("name", w.name)]),
   ("now", .str now),
   ("executionId", .str executionId)]

/-- `WorkflowEngine.execute(workflow, triggerData)`, given the generated run
identifier and run-start timestamp; returns the result together with the
terminal step records the run persisted. -/
def executeRun (handlers : Handlers) (w : Workflow) (triggerData : Value)
    (executionId now : String) : ExecResult × List StepRecord :=
  let context := seedContext w triggerData executionId now
  let r := runActions handlers w.actions context
  match r.err with
  | none => (⟨true, executionId, r.log, none, some r.ctx⟩, r.steps)
  | some msg => (⟨false, executionId, r.log, some msg, none⟩, r.steps)

/-- The result value of `WorkflowEngine.execute` alone. -/
def execute (handlers : Handlers) (w : Workflow) (triggerData : Value)
    (executionId now : String) : ExecResult :=
  (executeRun handlers w triggerData executionId now).1

/-! ## The validator (`WorkflowEngine.validateWorkflow`) -/

/-- A raw action as the validator sees it: each field may be absent
(JS `undefined`, modelled `none`) or any value. -/
structure ActionDef where
  id : Option Value
  type : Option Value
  config : Option Value
deriving Repr

/-- A raw workflow definition as the validator sees it.  `actions`, when
present, is an array (for a present non-array value the source's `forEach`
would throw; the spec's workflow source produces arrays). -/
structure WorkflowDef where
  id : Option Value
  name : Option Value
  actions : Option (List ActionDef)
deriving Repr

/-- JS falsiness of a possibly-absent field value (`!x`). -/
def optFalsy : Option Value → Bool
  | none => true
  | some v => !truthy v

/-- `{valid, errors}` as returned by `validateWorkflow`. -/
structure ValidationResult where
  valid : Bool
  errors : List String
deriving Repr

/-- The `forEach` body of `validateWorkflow`: the three per-action checks,
in source order, for the action at 0-based position `i`. -/
def actionErrors (i : Nat) (a : ActionDef) : List String :=
  (if optFalsy a.id then ["Action " ++ toString i ++ " must have an id"] else []) ++
  (if optFalsy a.type then ["Action " ++ toString i ++ " must have a type"] else []) ++
  (if optFalsy a.config then ["Action " ++ toString i ++ " must have config"] else [])

/--
`WorkflowEngine.validateWorkflow(workflow)`:
```
const errors = [];
if (!workflow.id) errors.push('Workflow must have an id');
if (!workflow.name) errors.push('Workflow must have a name');
if (!workflow.actions || !Array.isArray(workflow.actions)) {
    errors.push('Workflow must have an actions array');
}
if (workflow.actions) { workflow.actions.forEach((action, i) => { ... }); }
return { valid: errors.length === 0, errors };
```
A present `actions` field is an array, which is truthy and passes
`Array.isArray`, so the third check fails exactly when `actions` is absent
(note an empty array is truthy in JS). -/
def validateWorkflow (w : WorkflowDef) : ValidationResult :=
  let errors :=
    (if optFalsy w.id then ["Workflow must have an id"] else []) ++
    (if optFalsy w.name then ["Workflow must have a name"] else []) ++
    (match w.actions with
     | none => ["Workflow must have an actions array"]
     | some _ => []) ++
    (match w.actions with
     | none => []
     | some actions => (actions.enum.map (fun p => actionErrors p.1 p.2)).flatten)
  ⟨errors.isEmpty, errors⟩

/-- Whether a character list contains two consecutive `'{'` characters
(a literal `"{{"` occurrence). -/
def hasDoubleBrace : List Char → Bool
  | c :: d :: cs => (c == '{' && d == '{') || hasDoubleBrace (d :: cs)
  | _ => false

/-- A value contains no literal `"{{"` text in any string anywhere inside
it (the hypothesis of the resolution idempotence property). -/
inductive NoDoubleBrace : Value → Prop where
  | null : NoDoubleBrace .null
  | bool (b : Bool) : NoDoubleBrace (.bool b)
  | num (n : Int) : NoDoubleBrace (.num n)
  | str (s : String) : hasDoubleBrace s.data = false → NoDoubleBrace (.str s)
  | arr (xs : List Value) : (∀ x ∈ xs, NoDoubleBrace x) → NoDoubleBrace (.arr xs)
  | obj (fs : Ctx) : (∀ kv ∈ fs, NoDoubleBrace kv.2) → NoDoubleBrace (.obj fs)

/-! ## Helper lemmas -/

lemma getProp_setKey_self (ctx : Ctx) (k : String) (v : Value) :
    getProp (setKey ctx k v) k = some v := by
  induction ctx with
  | nil => simp [setKey, getProp]
  | cons kv rest ih =>
      obtain ⟨k', w⟩ := kv
      by_cases h : k' = k
      · subst h; simp [setKey, getProp]
      · simp [setKey, getProp, h, ih]

lemma getProp_setKey_ne (ctx : Ctx) (k k' : String) (v : Value) (h : k' ≠ k) :
    getProp (setKey ctx k v) k' = getProp ctx k' := by
  have h' : k ≠ k' := Ne.symm h
  induction ctx with
  | nil => simp [setKey, getProp, h']
  | cons kv rest ih =>
      obtain ⟨k'', w⟩ := kv
      by_cases hk : k'' = k
      · subst hk
        simp [setKey, getProp, h']
      · simp [setKey, getProp, hk, ih]

lemma runActions_nil (handlers : Handlers) (ctx : Ctx) :
    runActions handlers [] ctx = ⟨[], [], none, ctx⟩ := rfl

lemma runActions_cons_ok (handlers : Handlers) (a : Action) (rest : List Action)
    (ctx : Ctx) (res : Value)
    (h : executeAction handlers a.type (resolveVariables a.config ctx) = .ok res) :
    runActions handlers (a :: rest) ctx =
      ⟨⟨a.id, a.type, a.config, "completed", some res, none⟩
          :: (runActions handlers rest (stepCtx a res ctx)).steps,
       .completed a.id res :: (runActions handlers rest (stepCtx a res ctx)).log,
       (runActions handlers rest (stepCtx a res ctx)).err,
       (runActions handlers rest (stepCtx a res ctx)).ctx⟩ := by
  simp [runActions, h]

lemma runActions_cons_err (handlers : Handlers) (a : Action) (rest : List Action)
    (ctx : Ctx) (msg : String)
    (h : executeAction handlers a.type (resolveVariables a.config ctx) = .error msg) :
    runActions handlers (a :: rest) ctx =
      ⟨[⟨a.id, a.type, a.config, "failed", none, some msg⟩],
       [.failed a.id msg], some msg, ctx⟩ := by
  simp [runActions, h]

/-- A fully successful prefix of the loop composes with the remainder:
the step records and log concatenate, and the remainder starts from the
prefix's final context. -/
lemma runActions_append (handlers : Handlers) : ∀ (pre rest : List Action) (ctx : Ctx),
    (runActions handlers pre ctx).err = none →
    runActions handlers (pre ++ rest) ctx =
      ⟨(runActions handlers pre ctx).steps
          ++ (runActions handlers rest (runActions handlers pre ctx).ctx).steps,
       (runActions handlers pre ctx).log
          ++ (runActions handlers rest (runActions handlers pre ctx).ctx).log,
       (runActions handlers rest (runActions handlers pre ctx).ctx).err,
       (runActions handlers rest (runActions handlers pre ctx).ctx).ctx⟩ := by
  intro pre
  induction pre with
  | nil => intro rest ctx _; rfl
  | cons a pre ih =>
      intro rest ctx hpre
      cases hEA : executeAction handlers a.type (resolveVariables a.config ctx) with
      | ok res =>
          have hpre' : (runActions handlers pre (stepCtx a res ctx)).err = none := by
            rw [runActions_cons_ok handlers a pre ctx res hEA] at hpre
            exact hpre
          have hrec := ih rest (stepCtx a res ctx) hpre'
          rw [List.cons_append, runActions_cons_ok handlers a (pre ++ rest) ctx res hEA,
              hrec, runActions_cons_ok handlers a pre ctx res hEA]
          simp
      | error msg =>
          rw [runActions_cons_err handlers a pre ctx msg hEA] at hpre
          simp at hpre

/-- A loop run that did not abort produced one completed log entry and one
step record per action, in order. -/
lemma runActions_complete (handlers : Handlers) : ∀ (as : List Action) (ctx : Ctx),
    (runActions handlers as ctx).err = none →
    (runActions handlers as ctx).log.length = as.length
    ∧ (runActions handlers as ctx).steps.length = as.length
    ∧ ∀ e ∈ (runActions handlers as ctx).log, ∃ s out, e = .completed s out := by
  intro as
  induction as with
  | nil => intro ctx _; simp [runActions_nil]
  | cons a rest ih =>
      intro ctx h
      cases hEA : executeAction handlers a.type (resolveVariables a.config ctx) with
      | ok res =>
          have h' : (runActions handlers rest (stepCtx a res ctx)).err = none := by
            rw [runActions_cons_ok handlers a rest ctx res hEA] at h; exact h
          obtain ⟨h1, h2, h3⟩ := ih (stepCtx a res ctx) h'
          rw [runActions_cons_ok handlers a rest ctx res hEA]
          refine ⟨by simp [h1], by simp [h2], ?_⟩
          intro e he
          simp only [List.mem_cons] at he
          rcases he with rfl | he
          · exact ⟨a.id, res, rfl⟩
          · exact h3 e he
      | error msg =>
          rw [runActions_cons_err handlers a rest ctx msg hEA] at h
          simp at h

/-- A loop run that aborted with `msg` ends its log with a failed entry
carrying exactly `msg`. -/
lemma runActions_fail_log (handlers : Handlers) : ∀ (as : List Action) (ctx : Ctx)
    (msg : String),
    (runActions handlers as ctx).err = some msg →
    ∃ l s, (runActions handlers as ctx).log = l ++ [.failed s msg] := by
  intro as
  induction as with
  | nil => intro ctx msg h; rw [runActions_nil] at h; simp at h
  | cons a rest ih =>
      intro ctx msg h
      cases hEA : executeAction handlers a.type (resolveVariables a.config ctx) with
      | ok res =>
          have h' : (runActions handlers rest (stepCtx a res ctx)).err = some msg := by
            rw [runActions_cons_ok handlers a rest ctx res hEA] at h; exact h
          obtain ⟨l, s, hl⟩ := ih (stepCtx a res ctx) msg h'
          rw [runActions_cons_ok handlers a rest ctx res hEA]
          exact ⟨.completed a.id res :: l, s, by simp [hl]⟩
      | error m =>
          have hm : m = msg := by
            rw [runActions_cons_err handlers a rest ctx m hEA] at h
            simpa using h
          subst hm
          rw [runActions_cons_err handlers a rest ctx m hEA]
          exact ⟨[], a.id, rfl⟩

lemma hasDoubleBrace_cons_false {c : Char} {cs : List Char}
    (h : hasDoubleBrace (c :: cs) = false) : hasDoubleBrace cs = false := by
  match cs with
  | [] => rfl
  | d :: cs' =>
      rw [hasDoubleBrace] at h
      exact (Bool.or_eq_false_iff.mp h).2

/-- The scanner copies a string with no `"{{"` occurrence verbatim. -/
lemma scanAux_no_token (ctx : Ctx) : ∀ (n : Nat) (cs : List Char),
    hasDoubleBrace cs = false → scanAux ctx n cs = cs := by
  intro n
  induction n with
  | zero => intro cs _; rfl
  | succ n ih =>
      intro cs h
      match cs with
      | [] => rfl
      | c :: cs' =>
          have h' : hasDoubleBrace cs' = false := hasDoubleBrace_cons_false h
          have hcond : ¬(c = '{' ∧ cs'.head? = some '{') := by
            rintro ⟨rfl, hh⟩
            match cs', hh with
            | d :: cs'', hh =>
                have hd : d = '{' := by simpa using hh
                subst hd
                rw [hasDoubleBrace] at h
                simp at h
          rw [scanAux, if_neg hcond, ih cs' h']

lemma scanAux_nil (ctx : Ctx) (n : Nat) : scanAux ctx n [] = [] := by
  cases n <;> rfl

lemma scanAux_no_open (ctx : Ctx) (n : Nat) (c : Char) (cs : List Char)
    (h : ¬(c = '{' ∧ cs.head? = some '{')) :
    scanAux ctx (n + 1) (c :: cs) = c :: scanAux ctx n cs := by
  rw [scanAux, if_neg h]

/-- Splitting a run of non-`'}'` characters at the first `'}'`. -/
lemma takeWhile_append_stop : ∀ (l cs : List Char), (∀ c ∈ l, c ≠ '}') →
    (l ++ '}' :: cs).takeWhile (fun d => d ≠ '}') = l
    ∧ (l ++ '}' :: cs).dropWhile (fun d => d ≠ '}') = '}' :: cs := by
  intro l
  induction l with
  | nil =>
      intro cs _
      constructor
      · rw [List.nil_append, List.takeWhile_cons, if_neg (by decide)]
      · rw [List.nil_append, List.dropWhile_cons, if_neg (by decide)]
  | cons c l ih =>
      intro cs hl
      have hc : c ≠ '}' := hl c (by simp)
      have hcb : decide (c ≠ '}') = true := decide_eq_true hc
      obtain ⟨h1, h2⟩ := ih cs (fun d hd => hl d (by simp [hd]))
      constructor
      · rw [List.cons_append, List.takeWhile_cons, if_pos hcb, h1]
      · rw [List.cons_append, List.dropWhile_cons, if_pos hcb, h2]

/-- The scanner's output does not depend on the fuel, as long as the fuel
bounds the input length. -/
lemma scanAux_fuel (ctx : Ctx) : ∀ (k : Nat) (cs : List Char), cs.length ≤ k →
    ∀ (n m : Nat), cs.length ≤ n → cs.length ≤ m →
    scanAux ctx n cs = scanAux ctx m cs := by
  intro k
  induction k with
  | zero =>
      intro cs hcs n m _ _
      have : cs = [] := by
        cases cs with
        | nil => rfl
        | cons c cs' => simp at hcs
      subst this
      rw [scanAux_nil, scanAux_nil]
  | succ k ih =>
      intro cs hcs n m hn hm
      match cs with
      | [] => rw [scanAux_nil, scanAux_nil]
      | c :: cs' =>
          cases n with
          | zero => simp at hn
          | succ n' =>
            cases m with
            | zero => simp at hm
            | succ m' =>
              have hlenk : cs'.length ≤ k := by simpa using hcs
              have hln : cs'.length ≤ n' := by simpa using hn
              have hlm : cs'.length ≤ m' := by simpa using hm
              by_cases hcond : (c = '{' ∧ cs'.head? = some '{')
              · obtain ⟨rfl, hh⟩ := hcond
                match cs', hh, hlenk, hln, hlm with
                | d :: cs'', hh, hlenk, hln, hlm =>
                    have hd : d = '{' := by simpa using hh
                    subst hd
                    have hpos : ('{' : Char) = '{' ∧ ('{' :: cs'').head? = some '{' :=
                      ⟨rfl, rfl⟩
                    rw [scanAux, scanAux, if_pos hpos, if_pos hpos]
                    simp only [List.tail_cons]
                    have hk2 : cs''.length + 1 ≤ k := by simpa using hlenk
                    have hn2 : cs''.length + 1 ≤ n' := by simpa using hln
                    have hm2 : cs''.length + 1 ≤ m' := by simpa using hlm
                    by_cases hrun : (cs''.takeWhile (fun d => d ≠ '}')).isEmpty
                    · rw [if_pos hrun, if_pos hrun]
                      rw [ih ('{' :: cs'') (by simpa using hk2) n' m'
                        (by simpa using hn2) (by simpa using hm2)]
                    · rw [if_neg hrun, if_neg hrun]
                      by_cases hsec : ((cs''.dropWhile (fun d => d ≠ '}')).head? = some '}'
                          ∧ (cs''.dropWhile (fun d => d ≠ '}')).tail.head? = some '}')
                      · rw [if_pos hsec, if_pos hsec]
                        have hdl : (cs''.dropWhile (fun d => d ≠ '}')).length ≤ cs''.length :=
                          (List.dropWhile_suffix _).sublist.length_le
                        have htt : (cs''.dropWhile (fun d => d ≠ '}')).tail.tail.length
                            ≤ cs''.length := by
                          simp only [List.length_tail]
                          omega
                        rw [ih ((cs''.dropWhile (fun d => d ≠ '}')).tail.tail)
                          (by omega) n' m' (by omega) (by omega)]
                      · rw [if_neg hsec, if_neg hsec]
                        rw [ih ('{' :: cs'') (by simpa using hk2) n' m'
                          (by simpa using hn2) (by simpa using hm2)]
              · rw [scanAux_no_open ctx n' c cs' hcond, scanAux_no_open ctx m' c cs' hcond,
                  ih cs' hlenk n' m' hln hlm]

/-- The scanner copies a `'{'`-free prefix verbatim and scans the rest. -/
lemma scanAux_front (ctx : Ctx) : ∀ (pre cs : List Char) (n m : Nat),
    (∀ c ∈ pre, c ≠ '{') → (pre ++ cs).length ≤ n → cs.length ≤ m →
    scanAux ctx n (pre ++ cs) = pre ++ scanAux ctx m cs := by
  intro pre
  induction pre with
  | nil =>
      intro cs n m _ hn hm
      simp only [List.nil_append] at hn ⊢
      exact scanAux_fuel ctx n cs hn n m hn hm
  | cons c pre ih =>
      intro cs n m hpre hn hm
      cases n with
      | zero => simp at hn
      | succ n' =>
          have hc : c ≠ '{' := hpre c (by simp)
          have hcond : ¬(c = '{' ∧ (pre ++ cs).head? = some '{') := fun hx => hc hx.1
          rw [List.cons_append, scanAux_no_open ctx n' c (pre ++ cs) hcond,
            ih cs n' m (fun d hd => hpre d (by simp [hd])) (by simpa using hn) hm,
            List.cons_append]

/-- Scanning a `\x7b\x7bpath\x7d\x7d` token: the occurrence is replaced by
the string form of the resolved value when the trimmed path resolves, and
kept verbatim when it does not; scanning continues after the token. -/
lemma scanAux_token (ctx : Ctx) (n : Nat) (path tail : List Char)
    (hne : path ≠ []) (hpath : ∀ c ∈ path, c ≠ '}') :
    scanAux ctx (n + 1) ('{' :: '{' :: (path ++ '}' :: '}' :: tail))
      = (match getNestedValue (Value.obj ctx) (String.mk (trimChars path)) with
         | some v => (valueToString v).data
         | none => '{' :: '{' :: (path ++ '}' :: '}' :: [])) ++ scanAux ctx n tail := by
  obtain ⟨htw, hdw⟩ := takeWhile_append_stop path ('}' :: tail) hpath
  have hpe : path.isEmpty = false := by simp [List.isEmpty_iff, hne]
  rw [scanAux, if_pos (⟨rfl, rfl⟩ : ('{' : Char) = '{'
    ∧ ('{' :: (path ++ '}' :: '}' :: tail)).head? = some '{')]
  simp only [List.tail_cons]
  rw [htw, hdw]
  simp [hpe]

/-- Substituting over a string with no `"{{"` occurrence is the identity. -/
lemma substituteString_no_token (s : String) (ctx : Ctx)
    (h : hasDoubleBrace s.data = false) : substituteString s ctx = s := by
  unfold substituteString
  rw [scanAux_no_token ctx s.data.length s.data h]

lemma resolveList_self (ctx : Ctx) (xs : List Value)
    (h : ∀ x ∈ xs, resolveVariables x ctx = x) : resolveList xs ctx = xs := by
  induction xs with
  | nil => rfl
  | cons v vs ih =>
      rw [resolveList, h v (by simp), ih (fun x hx => h x (by simp [hx]))]

lemma resolveFields_self (ctx : Ctx) (fs : Ctx)
    (h : ∀ kv ∈ fs, resolveVariables kv.2 ctx = kv.2) : resolveFields fs ctx = fs := by
  induction fs with
  | nil => rfl
  | cons kv fs ih =>
      rw [resolveFields, h kv (by simp), ih (fun kv' hkv => h kv' (by simp [hkv]))]

/-- A value with no `"{{"` text anywhere resolves to itself. -/
lemma noDoubleBrace_resolve_self (ctx : Ctx) :
    ∀ (v : Value), NoDoubleBrace v → resolveVariables v ctx = v := by
  intro v h
  induction h with
  | null => rfl
  | bool b => rfl
  | num n => rfl
  | str s hs => rw [resolveVariables, substituteString_no_token s ctx hs]
  | arr xs hmem ih =>
      rw [resolveVariables, resolveList_self ctx xs ih]
  | obj fs hmem ih =>
      rw [resolveVariables, resolveFields_self ctx fs ih]

/-! ## Claim theorems -/

/-- **C5** — Context update frame: a successful action with a declared
output key writes the handler result into the context under exactly that
key (overwriting any prior binding, seeded keys included) and changes no
other key; an action without an output key leaves the context unchanged. -/
theorem context_update_frame (a : Action) (result : Value) (ctx : Ctx) :
    (∀ k, a.output = some k → k ≠ "" →
      getProp (stepCtx a result ctx) k = some result ∧
      ∀ k', k' ≠ k → getProp (stepCtx a result ctx) k' = getProp ctx k') ∧
    (a.output = none → stepCtx a result ctx = ctx) := by
  constructor
  · intro k hk hne
    simp only [stepCtx, hk, if_neg hne]
    exact ⟨getProp_setKey_self ctx k result,
           fun k' h' => getProp_setKey_ne ctx k k' result h'⟩
  · intro h; simp [stepCtx, h]

/-- Witness for C5: writing result `7` under output key `"out"` over a
seeded context binds `"out"` and leaves `"trigger"` untouched. -/
theorem context_update_frame_witness :
    getProp (stepCtx ⟨"s1", "t", .null, some "out"⟩ (.num 7) [("trigger", .null)]) "out"
      = some (.num 7) ∧
    getProp (stepCtx ⟨"s1", "t", .null, some "out"⟩ (.num 7) [("trigger", .null)]) "trigger"
      = getProp [("trigger", .null)] "trigger" := by
  have h := (context_update_frame ⟨"s1", "t", .null, some "out"⟩ (.num 7)
      [("trigger", .null)]).1 "out" rfl (by decide)
  exact ⟨h.1, h.2 "trigger" (by decide)⟩

/-- **C4** — A workflow with an empty action sequence executes to success
with an empty log and a context equal to the seeded context: exactly the
four keys `trigger`, `workflow` (`{id, name}`), `now` and `executionId`. -/
theorem empty_workflow_success (handlers : Handlers) (w : Workflow)
    (trig : Value) (eid now : String) (h : w.actions = []) :
    execute handlers w trig eid now =
      ⟨true, eid, [], none,
       some [("trigger", trig),
             ("workflow", .obj [("id", w.id), ("name", w.name)]),
             ("now", .str now),
             ("executionId", .str eid)]⟩ := by
  obtain ⟨wid, wname, wacts⟩ := w
  simp only at h
  subst h
  rfl

/-- Witness for C4 at a concrete empty workflow. -/
theorem empty_workflow_success_witness :
    execute (fun _ => none) ⟨.str "w1", .str "Wf", []⟩ (.obj []) "e1" "t1"
      = ⟨true, "e1", [], none,
         some [("trigger", .obj []),
               ("workflow", .obj [("id", .str "w1"), ("name", .str "Wf")]),
               ("now", .str "t1"),
               ("executionId", .str "e1")]⟩ :=
  empty_workflow_success (fun _ => none) ⟨.str "w1", .str "Wf", []⟩ (.obj []) "e1" "t1" rfl

/-- **C7** — Validator error aggregation: `valid` is true iff the error
list is empty, and the spec's example (workflow missing `id` and `name`,
action missing `type`) yields exactly the three corresponding messages. -/
theorem validator_aggregation :
    (∀ w : WorkflowDef, (validateWorkflow w).valid = true ↔ (validateWorkflow w).errors = []) ∧
    validateWorkflow ⟨none, none, some [⟨some (.str "a1"), none, some (.obj [])⟩]⟩
      = ⟨false, ["Workflow must have an id", "Workflow must have a name",
                 "Action 0 must have a type"]⟩ := by
  refine ⟨fun w => ?_, rfl⟩
  simp [validateWorkflow, List.isEmpty_iff]

/-- **C8 counterexample** — the claim "a present-but-empty action sequence
makes the workflow invalid" is false: the code checks only
`!workflow.actions || !Array.isArray(workflow.actions)`, and an empty array
is truthy, so this fully-named workflow with zero actions validates. -/
theorem validator_empty_actions_cex :
    (validateWorkflow ⟨some (.str "w1"), some (.str "Wf"), some []⟩).valid = true := rfl

/-- **C8 (amended)** — the validator does not enforce a non-empty action
sequence: for a present-but-empty actions array, validity is decided by the
id and name checks alone. -/
theorem validator_empty_actions_amended (i n : Option Value) :
    (validateWorkflow ⟨i, n, some []⟩).valid = (!optFalsy i && !optFalsy n) := by
  by_cases hi : optFalsy i <;> by_cases hn : optFalsy n <;>
    simp [validateWorkflow, hi, hn]

/-- **C9 counterexample** — the claim "the config message appears iff
config is null or absent" is false: `config: 0` is present and non-null,
yet the truthiness test `!action.config` reports it missing. -/
theorem config_check_cex :
    (validateWorkflow ⟨some (.str "w"), some (.str "W"),
        some [⟨some (.str "a1"), some (.str "t"), some (.num 0)⟩]⟩).errors
      = ["Action 0 must have config"] := rfl

lemma config_msg_ne_id_msg (i : Nat) :
    ("Action " ++ toString i ++ " must have config")
      ≠ ("Action " ++ toString i ++ " must have an id") := by
  intro h
  have hd := congrArg String.data h
  rw [String.data_append, String.data_append, String.data_append,
    String.data_append] at hd
  exact absurd (List.append_cancel_left hd) (by decide)

lemma config_msg_ne_type_msg (i : Nat) :
    ("Action " ++ toString i ++ " must have config")
      ≠ ("Action " ++ toString i ++ " must have a type") := by
  intro h
  have hd := congrArg String.data h
  rw [String.data_append, String.data_append, String.data_append,
    String.data_append] at hd
  exact absurd (List.append_cancel_left hd) (by decide)

/-- **C9 (amended)** — the per-action config check is a JS truthiness gate,
not a null/absence gate: the message `"Action {i} must have config"` is
produced iff the action's `config` is falsy (absent, `null`, `false`, `0`,
or the empty string). -/
theorem config_check_amended (i : Nat) (a : ActionDef) :
    (("Action " ++ toString i ++ " must have config") ∈ actionErrors i a)
      ↔ optFalsy a.config = true := by
  by_cases hid : optFalsy a.id <;> by_cases hty : optFalsy a.type <;>
    by_cases hcf : optFalsy a.config <;>
      simp [actionErrors, hid, hty, hcf, config_msg_ne_id_msg i, config_msg_ne_type_msg i]

/-- **C1** — Fail-fast step failure: if every action before `a` dispatches
successfully and `a`'s dispatch fails with `msg` (a thrown handler error,
or — as the last conjunct states — the exact message
"Unknown action type: [type]" when no handler is registered), then `a`'s
step record is terminal-failed with `msg`, the log is the completed entries
of the prefix followed by one failed entry, and no action after `a` runs or
produces a step record. -/
theorem fail_fast_step_failure (handlers : Handlers) (pre post : List Action) (a : Action)
    (ctx : Ctx) (msg : String)
    (hpre : (runActions handlers pre ctx).err = none)
    (hfail : executeAction handlers a.type
        (resolveVariables a.config (runActions handlers pre ctx).ctx) = .error msg) :
    (runActions handlers (pre ++ a :: post) ctx).err = some msg
    ∧ (runActions handlers (pre ++ a :: post) ctx).steps
        = (runActions handlers pre ctx).steps
            ++ [⟨a.id, a.type, a.config, "failed", none, some msg⟩]
    ∧ (runActions handlers (pre ++ a :: post) ctx).log
        = (runActions handlers pre ctx).log ++ [.failed a.id msg]
    ∧ (runActions handlers pre ctx).log.length = pre.length
    ∧ (∀ e ∈ (runActions handlers pre ctx).log, ∃ s out, e = .completed s out)
    ∧ (runActions handlers (pre ++ a :: post) ctx).steps.length = pre.length + 1
    ∧ (∀ ty cfg, handlers ty = none →
        executeAction handlers ty cfg = .error ("Unknown action type: " ++ ty)) := by
  obtain ⟨hlen, hslen, hcomp⟩ := runActions_complete handlers pre ctx hpre
  have happ := runActions_append handlers pre (a :: post) ctx hpre
  have hstep := runActions_cons_err handlers a post (runActions handlers pre ctx).ctx msg hfail
  rw [happ, hstep]
  refine ⟨rfl, by simp, by simp, hlen, hcomp, by simp [hslen], ?_⟩
  intro ty cfg hh
  simp [executeAction, hh]

/-- Witness for C1: a three-action run whose second action has an
unregistered type aborts after two step records with the unknown-type
message. -/
theorem fail_fast_step_failure_witness :
    (runActions (fun t => if t = "ok" then some (fun _ => .ok (.str "done")) else none)
        ([⟨"s1", "ok", .null, none⟩] ++ ⟨"s2", "boom", .null, none⟩ :: [⟨"s3", "ok", .null, none⟩])
        []).err = some "Unknown action type: boom"
    ∧ (runActions (fun t => if t = "ok" then some (fun _ => .ok (.str "done")) else none)
        ([⟨"s1", "ok", .null, none⟩] ++ ⟨"s2", "boom", .null, none⟩ :: [⟨"s3", "ok", .null, none⟩])
        []).steps.length = 1 + 1 := by
  have h := fail_fast_step_failure
    (fun t => if t = "ok" then some (fun _ => .ok (.str "done")) else none)
    [⟨"s1", "ok", .null, none⟩] [⟨"s3", "ok", .null, none⟩]
    ⟨"s2", "boom", .null, none⟩ [] "Unknown action type: boom" rfl rfl
  exact ⟨h.1, h.2.2.2.2.2.1⟩

/-- **C3** — `execute` never raises: for every workflow, trigger input and
handler behaviour (the persistence collaborator is assumed reliable, as the
spec states), it returns a result carrying the run identifier; on full
completion `success` is true, `error` absent and the context returned; on
early abort `success` is false, no context is returned, and `error` holds
the failing step's message — the same message as the final, failed log
entry. -/
theorem execute_total_shape (handlers : Handlers) (w : Workflow) (trig : Value)
    (eid now : String) :
    (execute handlers w trig eid now).execution_id = eid
    ∧ ((execute handlers w trig eid now).success = true
          ∧ (execute handlers w trig eid now).error = none
          ∧ (∃ c, (execute handlers w trig eid now).context = some c)
        ∨ (execute handlers w trig eid now).success = false
          ∧ (execute handlers w trig eid now).context = none
          ∧ ∃ msg, (execute handlers w trig eid now).error = some msg
              ∧ ∃ l s, (execute handlers w trig eid now).log = l ++ [.failed s msg]) := by
  unfold execute executeRun
  cases herr : (runActions handlers w.actions (seedContext w trig eid now)).err with
  | none => simp [herr]
  | some msg =>
      obtain ⟨l, s, hl⟩ :=
        runActions_fail_log handlers w.actions (seedContext w trig eid now) msg herr
      simp [herr, hl]
      exact ⟨l, s, rfl⟩

/-- **C2** — Substitution gate: a `\x7b\x7bpath\x7d\x7d` occurrence whose
trimmed dot-path resolves to a defined context value is replaced by that
value's string form — whatever the value, so also `false`, `0` and `""` —
while an occurrence whose path does not resolve is left verbatim with its
delimiters; scanning continues after the occurrence either way.  In
particular, the spec's two examples and the three falsy-value cases hold. -/
theorem variable_substitution_gate :
    (∀ (ctx : Ctx) (pre path suf : List Char) (v : Value),
      (∀ c ∈ pre, c ≠ '{') → path ≠ [] → (∀ c ∈ path, c ≠ '}') →
      getNestedValue (.obj ctx) (String.mk (trimChars path)) = some v →
      substituteString (String.mk (pre ++ '{' :: '{' :: (path ++ '}' :: '}' :: suf))) ctx
        = String.mk (pre ++ ((valueToString v).data
            ++ (substituteString (String.mk suf) ctx).data)))
    ∧ (∀ (ctx : Ctx) (pre path suf : List Char),
      (∀ c ∈ pre, c ≠ '{') → path ≠ [] → (∀ c ∈ path, c ≠ '}') →
      getNestedValue (.obj ctx) (String.mk (trimChars path)) = none →
      substituteString (String.mk (pre ++ '{' :: '{' :: (path ++ '}' :: '}' :: suf))) ctx
        = String.mk (pre ++ (('{' :: '{' :: (path ++ '}' :: '}' :: []))
            ++ (substituteString (String.mk suf) ctx).data)))
    ∧ substituteString "Hello \x7b\x7btrigger.name\x7d\x7d"
        [("trigger", .obj [("name", .str "John")])] = "Hello John"
    ∧ substituteString "\x7b\x7ba.b\x7d\x7d" [] = "\x7b\x7ba.b\x7d\x7d"
    ∧ substituteString "\x7b\x7bflag\x7d\x7d" [("flag", .bool false)] = "false"
    ∧ substituteString "\x7b\x7bn\x7d\x7d" [("n", .num 0)] = "0"
    ∧ substituteString "\x7b\x7be\x7d\x7d" [("e", .str "")] = "" := by
  have hsuf : ∀ (path suf : List Char),
      suf.length ≤ (path ++ '}' :: '}' :: suf).length + 1 := by
    intro path suf
    simp [List.length_append]
    omega
  refine ⟨?_, ?_, rfl, rfl, rfl, rfl, rfl⟩
  · intro ctx pre path suf v hpre hne hpath hget
    show String.mk (scanAux ctx (pre ++ '{' :: '{' :: (path ++ '}' :: '}' :: suf)).length
          (pre ++ '{' :: '{' :: (path ++ '}' :: '}' :: suf)))
      = String.mk (pre ++ ((valueToString v).data ++ scanAux ctx suf.length suf))
    apply congrArg String.mk
    rw [scanAux_front ctx pre ('{' :: '{' :: (path ++ '}' :: '}' :: suf))
      (pre ++ '{' :: '{' :: (path ++ '}' :: '}' :: suf)).length
      ('{' :: '{' :: (path ++ '}' :: '}' :: suf)).length hpre (le_refl _) (le_refl _)]
    simp only [List.length_cons]
    rw [scanAux_token ctx ((path ++ '}' :: '}' :: suf).length + 1) path suf hne hpath]
    rw [scanAux_fuel ctx ((path ++ '}' :: '}' :: suf).length + 1) suf (hsuf path suf)
      ((path ++ '}' :: '}' :: suf).length + 1) suf.length (hsuf path suf) (le_refl _)]
    rw [hget]
  · intro ctx pre path suf hpre hne hpath hget
    show String.mk (scanAux ctx (pre ++ '{' :: '{' :: (path ++ '}' :: '}' :: suf)).length
          (pre ++ '{' :: '{' :: (path ++ '}' :: '}' :: suf)))
      = String.mk (pre ++ (('{' :: '{' :: (path ++ '}' :: '}' :: []))
          ++ scanAux ctx suf.length suf))
    apply congrArg String.mk
    rw [scanAux_front ctx pre ('{' :: '{' :: (path ++ '}' :: '}' :: suf))
      (pre ++ '{' :: '{' :: (path ++ '}' :: '}' :: suf)).length
      ('{' :: '{' :: (path ++ '}' :: '}' :: suf)).length hpre (le_refl _) (le_refl _)]
    simp only [List.length_cons]
    rw [scanAux_token ctx ((path ++ '}' :: '}' :: suf).length + 1) path suf hne hpath]
    rw [scanAux_fuel ctx ((path ++ '}' :: '}' :: suf).length + 1) suf (hsuf path suf)
      ((path ++ '}' :: '}' :: suf).length + 1) suf.length (hsuf path suf) (le_refl _)]
    rw [hget]

/-- Witness for C2: both general clauses applied at concrete inputs — a
resolving path substitutes, a non-resolving path passes through. -/
theorem variable_substitution_gate_witness :
    substituteString (String.mk (('H' :: 'i' :: ' ' :: [])
        ++ '{' :: '{' :: (('n' :: 'a' :: 'm' :: 'e' :: []) ++ '}' :: '}' :: [])))
        [("name", .str "Bob")]
      = String.mk (('H' :: 'i' :: ' ' :: [])
          ++ ((valueToString (.str "Bob")).data
            ++ (substituteString (String.mk []) [("name", .str "Bob")]).data))
    ∧ substituteString (String.mk (([] : List Char)
        ++ '{' :: '{' :: (('x' :: []) ++ '}' :: '}' :: []))) ([] : Ctx)
      = String.mk (([] : List Char) ++ (('{' :: '{' :: (('x' :: []) ++ '}' :: '}' :: []))
          ++ (substituteString (String.mk []) ([] : Ctx)).data)) := by
  constructor
  · exact variable_substitution_gate.1 [("name", .str "Bob")] ('H' :: 'i' :: ' ' :: [])
      ('n' :: 'a' :: 'm' :: 'e' :: []) [] (.str "Bob")
      (by decide) (by decide) (by decide) rfl
  · exact variable_substitution_gate.2.1 [] ([] : List Char) ('x' :: []) []
      (by decide) (by decide) (by decide) rfl

/-- **C6** — Idempotence of resolution: whenever one resolution pass leaves
no literal `"{{"` text anywhere in the result, resolving that result again
is a no-op. -/
theorem resolution_idempotent (v : Value) (ctx : Ctx)
    (h : NoDoubleBrace (resolveVariables v ctx)) :
    resolveVariables (resolveVariables v ctx) ctx = resolveVariables v ctx :=
  noDoubleBrace_resolve_self ctx (resolveVariables v ctx) h

/-- Witness for C6: one pass turns `"\x7b\x7ba\x7d\x7d"` into `"ok"`, which
contains no token, and a second pass leaves it unchanged. -/
theorem resolution_idempotent_witness :
    resolveVariables (resolveVariables (.str "\x7b\x7ba\x7d\x7d") [("a", .str "ok")])
        [("a", .str "ok")]
      = resolveVariables (.str "\x7b\x7ba\x7d\x7d") [("a", .str "ok")] :=
  resolution_idempotent (.str "\x7b\x7ba\x7d\x7d") [("a", .str "ok")]
    (NoDoubleBrace.str "ok" (by decide))

/-- **C10** — a substituted `\x7b\x7bpath\x7d\x7d` occurrence is rendered with
JavaScript's default string conversion: numbers and booleans in canonical
form, `null` as `"null"`, arrays comma-joined, plain objects as
`"[object Object]"` (lossy, not JSON). -/
theorem substitution_stringification :
    valueToString (.num 0) = "0"
    ∧ valueToString (.bool false) = "false"
    ∧ valueToString .null = "null"
    ∧ valueToString (.arr [.num 1, .num 2, .str "x"]) = "1,2,x"
    ∧ valueToString (.arr [.null, .arr [.num 2, .num 3]]) = ",2,3"
    ∧ valueToString (.obj [("a", .num 1)]) = "[object Object]"
    ∧ substituteString "\x7b\x7ba\x7d\x7d" [("a", .obj [("k", .num 1)])] = "[object Object]"
    ∧ substituteString "\x7b\x7ba\x7d\x7d" [("a", .arr [.num 1, .num 2])] = "1,2"
    ∧ substituteString "\x7b\x7ba\x7d\x7d" [("a", .num 0)] = "0" :=
  ⟨rfl, rfl, rfl, rfl, rfl, rfl, rfl, rfl, rfl⟩

end AutoFlow
